import Mathlib

/-!
# Fan-out relay: snapshot production and broadcast pass

A shallow embedding of `main.go`: `GetRedisData` (cursor scan, bulk get, tolerant
float parse, JSON object encoding), `sendRedisData`, the body of `fetchData` for one
tick, and the registry operations of `handleWebSocket`.

The upstream store, the transport and the standard-library leaf functions
(`strconv.ParseFloat`, the string and float encoders of `encoding/json`) are
parameters of the model.  Stateful code is written in state-passing style; a Go panic
and an exhausted loop budget are explicit outcomes.
-/

namespace Relay

/-! ## Outcomes -/

/-- Result of running a piece of the program: a value, a Go panic, or a scan loop
that has not finished within the given number of iterations. -/
inductive Outcome (α : Type) where
  | ok (a : α)
  | panic (msg : String)
  | outOfFuel
deriving DecidableEq

/-! ## Standard-library interface -/

/-- The `err.Err` component of a `strconv.ParseFloat` failure. -/
inductive NumError where
  | ErrSyntax
  | ErrRange
deriving DecidableEq

/-- The leaf functions of the standard library used by `GetRedisData`, over a type
`V` of float64 values.  `ParseFloat` returns the pair `(f, err)`; as documented for
`strconv`, a syntax error comes with `f = 0`.  `encodeFloat` is the float encoder of
`encoding/json`, which rejects NaN and the infinities; `encodeString` is its string
encoder, used for object keys. -/
structure Lib (V : Type) where
  zero : V
  ParseFloat : String → V × Option NumError
  ParseFloat_syntax : ∀ s, (ParseFloat s).2 = some NumError.ErrSyntax → (ParseFloat s).1 = zero
  encodeString : String → String
  encodeFloat : V → Option String

/-! ## Go maps with string keys -/

/-- A `map[string]float64`, as an association list with at most one entry per key. -/
abbrev GoMap (V : Type) := List (String × V)

/-- The expression `m[k]` with the comma-ok form: the value stored under `k`, if any. -/
def mapGet {V : Type} (m : GoMap V) (k : String) : Option V :=
  match m with
  | [] => none
  | e :: rest => if e.1 = k then some e.2 else mapGet rest k

/-- The assignment `m[k] = v`: any previous entry for `k` is replaced. -/
def mapSet {V : Type} (m : GoMap V) (k : String) (v : V) : GoMap V :=
  (k, v) :: m.filter (fun e => !decide (e.1 = k))

/-- The keys of a map. -/
def mapKeys {V : Type} (m : GoMap V) : List String :=
  m.map Prod.fst

/-! ## JSON encoding of a `map[string]float64` -/

/-- Keys in the order `encoding/json` writes them: sorted as strings. -/
def sortKeys (ks : List String) : List String :=
  ks.insertionSort (fun a b => a ≤ b)

/-- One `key:value` member of the object, or `none` when the value is not encodable. -/
def encodeMember {V : Type} (L : Lib V) (data : GoMap V) (k : String) : Option String :=
  match mapGet data k with
  | none => none
  | some v =>
    match L.encodeFloat v with
    | none => none
    | some t => some (L.encodeString k ++ ":" ++ t)

/-- All members in order, or `none` as soon as one value is not encodable. -/
def encodeMembers {V : Type} (L : Lib V) (data : GoMap V) : List String → Option (List String)
  | [] => some []
  | k :: ks =>
    match encodeMember L data k with
    | none => none
    | some p =>
      match encodeMembers L data ks with
      | none => none
      | some ps => some (p :: ps)

/-- The call `json.Marshal(data)`: the pair `(bytes, err != nil)`.  On an unsupported
value the encoder returns no bytes and an error. -/
def Marshal {V : Type} (L : Lib V) (data : GoMap V) : String × Bool :=
  match encodeMembers L data (sortKeys (mapKeys data)) with
  | some parts => ("\x7b" ++ ",".intercalate parts ++ "\x7d", false)
  | none => ("", true)

/-! ## Upstream store -/

/-- What `rdb.Scan(ctx, cursor, "*", 10).Result()` returns: page, next cursor, error. -/
structure ScanReply where
  keys : List String
  cursor : Nat
  err : Bool
deriving DecidableEq

/-- What `rdb.MGet(ctx, keys...).Result()` returns: the values (a string or nil for
each entry) and the error. -/
structure MGetReply where
  vals : List (Option String)
  err : Bool
deriving DecidableEq

/-- The upstream store seen through the client library, over store states `σ`.
Each request may change the state, which is how concurrent writers are modelled. -/
structure Redis (σ : Type) where
  Scan : σ → Nat → ScanReply × σ
  MGet : σ → List String → MGetReply × σ

/-! ## Snapshot production -/

/-- The scan loop of `GetRedisData` (lines 121-128): every iteration overwrites
`keys` and `cursor`; the loop ends when the cursor is 0.  Returns the final `keys`
and store state, or `none` when `fuel` iterations were not enough. -/
def scanLoop {σ : Type} (R : Redis σ) : Nat → σ → Nat → Option (List String × σ)
  | 0, _, _ => none
  | fuel + 1, s, cursor =>
    let r := R.Scan s cursor
    if r.1.cursor = 0 then some (r.1.keys, r.2) else scanLoop R fuel r.2 r.1.cursor

/-- The parse loop of `GetRedisData` (lines 134-136), at index `i` of `keys`:
`data[key], _ = strconv.ParseFloat(values[i].(string), 64)`.  Indexing past the end
of `values` panics, and so does the type assertion on a nil entry. -/
def parseLoop {V : Type} (L : Lib V) (values : List (Option String)) :
    List String → Nat → GoMap V → Outcome (GoMap V)
  | [], _, data => .ok data
  | key :: rest, i, data =>
    match values[i]? with
    | none => .panic "runtime error: index out of range"
    | some none => .panic "interface conversion: interface \x7b\x7d is nil, not string"
    | some (some s) => parseLoop L values rest (i + 1) (mapSet data key (L.ParseFloat s).1)

/-- A session: the identity of its transport connection. -/
abbrev Conn := Nat

/-- The surroundings of `GetRedisData`: library, upstream store, and whether
`godotenv.Load` succeeds. -/
structure Sys (σ V : Type) where
  lib : Lib V
  redis : Redis σ
  dotenv : Bool

/-- The function `GetRedisData` (lines 102-140), from store state `s`.  All four
error results (scan, bulk get, parse, marshal) are discarded as in the source. -/
def GetRedisData {σ V : Type} (S : Sys σ V) (fuel : Nat) (s : σ) : Outcome (String × σ) :=
  if S.dotenv = false then .panic "Error loading .env file"
  else
    match scanLoop S.redis fuel s 0 with
    | none => .outOfFuel
    | some (keys, s1) =>
      let m := S.redis.MGet s1 keys
      match parseLoop S.lib m.1.vals keys 0 [] with
      | .ok data => .ok ((Marshal S.lib data).1, m.2)
      | .panic msg => .panic msg
      | .outOfFuel => .outOfFuel

/-! ## Sessions and the broadcast pass -/

/-- One call of `conn.WriteMessage(websocket.TextMessage, rd)`. -/
structure WriteEvent where
  conn : Conn
  payload : String
  failed : Bool
deriving DecidableEq

/-- Program state: the upstream store, the keys of the `connections` registry, and
the transport writes made so far, oldest first. -/
structure World (σ : Type) where
  store : σ
  connections : List Conn
  wire : List WriteEvent
deriving DecidableEq

/-- The function `sendRedisData` (lines 61-70): fetch a payload, write it to `conn`;
a write error is logged and nothing else happens.  `writeFails` tells which connections
fail on `WriteMessage`. -/
def sendRedisData {σ V : Type} (S : Sys σ V) (writeFails : Conn → Bool) (fuel : Nat)
    (w : World σ) (conn : Conn) : Outcome (World σ) :=
  match GetRedisData S fuel w.store with
  | .ok (rd, s1) =>
    .ok { w with store := s1, wire := w.wire ++ [⟨conn, rd, writeFails conn⟩] }
  | .panic msg => .panic msg
  | .outOfFuel => .outOfFuel

/-- The `connections.Range` callback applied along the registry keys `cs`: it calls
`sendRedisData` and always returns true, so only a panic ends the enumeration.  Every
key of the registry is a connection (`Store(conn, ...)` is the only write to the map),
so the type assertion of the callback always succeeds. -/
def rangeSend {σ V : Type} (S : Sys σ V) (writeFails : Conn → Bool) (fuel : Nat) :
    List Conn → World σ → Outcome (World σ)
  | [], w => .ok w
  | c :: cs, w =>
    match sendRedisData S writeFails fuel w c with
    | .ok w1 => rangeSend S writeFails fuel cs w1
    | .panic msg => .panic msg
    | .outOfFuel => .outOfFuel

/-- The body of `fetchData` for one tick (lines 49-56): one pass over the registry. -/
def fetchDataTick {σ V : Type} (S : Sys σ V) (writeFails : Conn → Bool) (fuel : Nat)
    (w : World σ) : Outcome (World σ) :=
  rangeSend S writeFails fuel w.connections w

/-- The call `connections.Store(conn, struct)` of `handleWebSocket` (line 82). -/
def registryStore (cs : List Conn) (c : Conn) : List Conn :=
  if c ∈ cs then cs else cs ++ [c]

/-- The call `connections.Delete(conn)` of `handleWebSocket` (line 98). -/
def registryDelete (cs : List Conn) (c : Conn) : List Conn :=
  cs.filter (fun d => !decide (d = c))

/-- The start of `handleWebSocket` after a successful upgrade (lines 82-85): register the
connection, then send it a first payload. -/
def handleWebSocketOpen {σ V : Type} (S : Sys σ V) (writeFails : Conn → Bool) (fuel : Nat)
    (w : World σ) (c : Conn) : Outcome (World σ) :=
  sendRedisData S writeFails fuel { w with connections := registryStore w.connections c } c

/-- The end of `handleWebSocket` (lines 92-98): `ReadMessage` returned an error, the read
loop is left and the connection is deleted from the registry. -/
def handleWebSocketReadError {σ : Type} (w : World σ) (c : Conn) : World σ :=
  { w with connections := registryDelete w.connections c }

/-! ## Sample inputs

A sample library and sample upstream stores, used to evaluate the model on concrete
inputs. -/

/-- The float64 values of the sample library: `mant / 10 ^ scale`, negated when `neg`. -/
structure Dec where
  neg : Bool
  mant : Nat
  scale : Nat
deriving DecidableEq

/-- The number written by a run of decimal digits after `acc`; `none` on any other
character. -/
def readDigits : Nat → List Char → Option Nat
  | acc, [] => some acc
  | acc, c :: cs => if c.isDigit then readDigits (acc * 10 + (c.toNat - 48)) cs else none

/-- Drops trailing zeros of the fraction. -/
def stripZeros : Nat → Nat → Nat × Nat
  | m, 0 => (m, 0)
  | m, sc + 1 => if m % 10 = 0 then stripZeros (m / 10) sc else (m, sc + 1)

/-- Reads `[+-]digits[.digits]` with at least one digit. -/
def parseDecimal (s : String) : Option Dec :=
  let cs := s.data
  let signed : Bool × List Char :=
    match cs with
    | '-' :: r => (true, r)
    | '+' :: r => (false, r)
    | r => (false, r)
  let ip := signed.2.takeWhile (fun c => c != '.')
  let fp := (signed.2.dropWhile (fun c => c != '.')).drop 1
  if ip.length + fp.length = 0 then none
  else
    match readDigits 0 (ip ++ fp) with
    | none => none
    | some m => some ⟨signed.1, (stripZeros m fp.length).1, (stripZeros m fp.length).2⟩

/-- Writes a value the way `encoding/json` writes a float64 in plain notation. -/
def renderDec (d : Dec) : String :=
  let ip := Nat.toDigits 10 (d.mant / 10 ^ d.scale)
  let fp := Nat.toDigits 10 (d.mant % 10 ^ d.scale)
  (if d.neg then "-" else "") ++ String.mk ip ++
    (if d.scale = 0 then "" else "." ++ String.mk (List.replicate (d.scale - fp.length) '0' ++ fp))

/-- One character of a JSON string as `encoding/json` writes it, HTML escaping on
(backspace and form feed in the `\u00XX` form, as before Go 1.22). -/
def escapeChar (c : Char) : List Char :=
  if c = '"' then ['\\', '"']
  else if c = '\\' then ['\\', '\\']
  else if c = '\n' then ['\\', 'n']
  else if c = '\r' then ['\\', 'r']
  else if c = '\t' then ['\\', 't']
  else if c.toNat < 32 ∨ c = '<' ∨ c = '>' ∨ c = '&' then
    ['\\', 'u', '0', '0', Nat.digitChar (c.toNat / 16), Nat.digitChar (c.toNat % 16)]
  else if c.toNat = 8232 then ['\\', 'u', '2', '0', '2', '8']
  else if c.toNat = 8233 then ['\\', 'u', '2', '0', '2', '9']
  else [c]

/-- The float64 values of the sample library: a finite decimal, an infinity (negative
when `neg`) or NaN. -/
inductive Num where
  | fin (d : Dec)
  | inf (neg : Bool)
  | nan
deriving DecidableEq

/-- An ASCII letter in lower case. -/
def lowerAscii (c : Char) : Char :=
  if 65 ≤ c.toNat ∧ c.toNat ≤ 90 then Char.ofNat (c.toNat + 32) else c

/-- The special values `strconv.ParseFloat` accepts, ignoring case: `inf` and `infinity`
with an optional sign, and `nan` without a sign. -/
def parseSpecial (s : String) : Option Num :=
  let cs := s.data.map lowerAscii
  let signed : Bool × List Char :=
    match cs with
    | '-' :: r => (true, r)
    | '+' :: r => (false, r)
    | r => (false, r)
  if signed.2 = ['i', 'n', 'f'] ∨ signed.2 = ['i', 'n', 'f', 'i', 'n', 'i', 't', 'y'] then
    some (Num.inf signed.1)
  else if cs = ['n', 'a', 'n'] then some Num.nan
  else none

/-- A sample library.  It agrees with `strconv.ParseFloat` and the encoders of
`encoding/json` on plain decimals `[+-]digits[.digits]` of up to 15 significant digits
and magnitude in `[1e-6, 1e21)` or zero, on the special values (`Inf`, `Infinity`, `NaN`),
which parse without error and which the float encoder rejects, and on text without a
numeric reading, which is a syntax error.  Exponent and hexadecimal forms (`1e5`,
`0x1p-2`) are not covered: the sample reports them as syntax errors as well. -/
def sampleLib : Lib Num where
  zero := Num.fin ⟨false, 0, 0⟩
  ParseFloat s :=
    match parseSpecial s with
    | some v => (v, none)
    | none =>
      match parseDecimal s with
      | some d => (Num.fin d, none)
      | none => (Num.fin ⟨false, 0, 0⟩, some NumError.ErrSyntax)
  ParseFloat_syntax := by
    intro s h
    cases hs : parseSpecial s <;> cases hp : parseDecimal s <;> simp_all
  encodeString k := String.mk ('"' :: (k.data.flatMap escapeChar ++ ['"']))
  encodeFloat v :=
    match v with
    | Num.fin d => some (renderDec d)
    | Num.inf _ => none
    | Num.nan => none

/-- State of the sample upstream: scan replies still to be given, and the stored
string values. -/
structure Mock where
  script : List ScanReply
  kv : List (String × String)
deriving DecidableEq

/-- A sample upstream.  Scan requests are answered from the script; once the script
is used up every scan returns the whole keyspace in one page with cursor 0.  A bulk get
without keys is an error, as the server rejects it; a key without a string value
yields nil. -/
def mockRedis : Redis Mock where
  Scan s _ :=
    match s.script with
    | [] => (⟨s.kv.map Prod.fst, 0, false⟩, s)
    | r :: rest => (r, { s with script := rest })
  MGet s ks :=
    if ks = [] then (⟨[], true⟩, s)
    else (⟨ks.map (fun k => s.kv.lookup k), false⟩, s)

/-- The sample system: sample library, sample upstream, `.env` present. -/
def sampleSys : Sys Mock Num := ⟨sampleLib, mockRedis, true⟩

/-! ## Sample stores -/

/-- Keys `a` and `b`, returned by the scan in two pages. -/
def twoBatchStore : Mock :=
  ⟨[⟨["a"], 7, false⟩, ⟨["b"], 0, false⟩], [("a", "1"), ("b", "2")]⟩

/-- The store of the happy-path scenario. -/
def happyStore : Mock := ⟨[], [("a", "1.5"), ("b", "2")]⟩

/-- The store of the malformed-value scenario. -/
def malformedStore : Mock := ⟨[], [("x", "not-a-number"), ("y", "3.1")]⟩

/-- The values of `malformedStore` as a function of the key. -/
def malformedValue (k : String) : String := if k = "x" then "not-a-number" else "3.1"

/-- The values of `happyStore` as a function of the key. -/
def happyValue (k : String) : String := if k = "a" then "1.5" else "2"

/-- Key `gone` is returned by the scan and has no value at the bulk get. -/
def expiredStore : Mock := ⟨[⟨["a", "gone"], 0, false⟩], [("a", "1")]⟩

/-- The first scan request fails: no page, cursor 0, an error. -/
def outageStore : Mock := ⟨[⟨[], 0, true⟩], [("a", "1")]⟩

/-- An empty keyspace. -/
def emptyStore : Mock := ⟨[], []⟩

/-- Key `a` appears between the first and the second scan request. -/
def changingStore : Mock := ⟨[⟨[], 0, false⟩], [("a", "1")]⟩

/-! ## Specification-side definitions -/

/-- The batches a scan loop started at state `s` with cursor `c` goes through: `pre`
are the pages returned with a non-zero next cursor, in order, `last` is the page
returned with next cursor 0, and `s1` is the store state after the last request. -/
inductive ScanRun {σ : Type} (R : Redis σ) : σ → Nat → List (List String) → List String → σ → Prop
  | last {s : σ} {c : Nat} {r : ScanReply} {s1 : σ} (h : R.Scan s c = (r, s1))
      (h0 : r.cursor = 0) : ScanRun R s c [] r.keys s1
  | more {s : σ} {c : Nat} {r : ScanReply} {s1 s2 : σ} {pre : List (List String)}
      {last : List String} (h : R.Scan s c = (r, s1)) (h0 : r.cursor ≠ 0)
      (rest : ScanRun R s1 r.cursor pre last s2) : ScanRun R s c (r.keys :: pre) last s2

/-- The parse loop as a fold over the key/value pairs. -/
def fill {V : Type} (L : Lib V) (kvs : List (String × String)) (data : GoMap V) : GoMap V :=
  kvs.foldl (fun d kv => mapSet d kv.1 (L.ParseFloat kv.2).1) data

/-- The mapping of the specification: every key of the store, once, with the number
parsed from its value. -/
def specSnapshot {V : Type} (L : Lib V) (keys : List String) (value : String → String) :
    GoMap V :=
  keys.dedup.map (fun k => (k, (L.ParseFloat (value k)).1))

/-- A well-formed decimal value: `ParseFloat` reports no error and the parsed number
is one the JSON encoder accepts (a finite number). -/
def WellFormed {V : Type} (L : Lib V) (v : String) : Prop :=
  (L.ParseFloat v).2 = none ∧ (L.encodeFloat (L.ParseFloat v).1).isSome = true

instance {V : Type} (L : Lib V) (v : String) : Decidable (WellFormed L v) := by
  unfold WellFormed
  infer_instance

/-- The JSON object of the specification over the keys `keys`, where `num` gives the
number of each key: one member `key:number` for every key, once each, in the order of the
encoder. -/
def specObject {V : Type} (L : Lib V) (keys : List String) (num : String → V) : String :=
  "\x7b" ++ ",".intercalate ((sortKeys keys.dedup).map
    (fun k => L.encodeString k ++ ":" ++ (L.encodeFloat (num k)).getD "")) ++ "\x7d"

/-- Keys `a` and `k`, returned by the scan in two pages; the value of `k` is `Inf`. -/
def infPageStore : Mock :=
  ⟨[⟨["a"], 7, false⟩, ⟨["k"], 0, false⟩], [("a", "1"), ("k", "Inf")]⟩

/-- A malformed value next to a value that parses to an infinity. -/
def malformedInfStore : Mock := ⟨[], [("x", "not-a-number"), ("y", "Inf")]⟩

/-! ## Lemmas on maps -/

theorem mapGet_mapSet_self {V : Type} (m : GoMap V) (k : String) (v : V) :
    mapGet (mapSet m k v) k = some v := by
  simp [mapSet, mapGet]

theorem mapGet_filter_ne {V : Type} (m : GoMap V) (k k1 : String) (h : k1 ≠ k) :
    mapGet (m.filter (fun e => !decide (e.1 = k))) k1 = mapGet m k1 := by
  induction m with
  | nil => rfl
  | cons e rest ih =>
    by_cases he : e.1 = k
    · have hk : ¬ k = k1 := fun h1 => h h1.symm
      simp [List.filter_cons, he, mapGet, hk, ih]
    · simp [List.filter_cons, he, mapGet, ih]

theorem mapGet_mapSet_ne {V : Type} (m : GoMap V) (k k1 : String) (v : V) (h : k1 ≠ k) :
    mapGet (mapSet m k v) k1 = mapGet m k1 := by
  have hk : ¬ k = k1 := fun h1 => h h1.symm
  simp only [mapSet, mapGet, hk, if_false]
  exact mapGet_filter_ne m k k1 h

theorem mem_mapKeys_mapSet {V : Type} (m : GoMap V) (k k1 : String) (v : V) :
    k1 ∈ mapKeys (mapSet m k v) ↔ k1 = k ∨ k1 ∈ mapKeys m := by
  simp only [mapKeys, mapSet, List.map_cons, List.mem_cons, List.mem_map, List.mem_filter,
    Bool.not_eq_true', decide_eq_false_iff_not]
  constructor
  · rintro (h | ⟨e, ⟨he, _⟩, rfl⟩)
    · exact Or.inl h
    · exact Or.inr ⟨e, he, rfl⟩
  · rintro (h | ⟨e, he, rfl⟩)
    · exact Or.inl h
    · by_cases hk : e.1 = k
      · exact Or.inl hk
      · exact Or.inr ⟨e, ⟨he, hk⟩, rfl⟩

theorem nodup_mapKeys_mapSet {V : Type} (m : GoMap V) (k : String) (v : V)
    (h : (mapKeys m).Nodup) : (mapKeys (mapSet m k v)).Nodup := by
  simp only [mapKeys, mapSet, List.map_cons, List.nodup_cons, List.mem_map, List.mem_filter,
    Bool.not_eq_true', decide_eq_false_iff_not]
  refine ⟨?_, ?_⟩
  · rintro ⟨e, ⟨_, hne⟩, he⟩
    exact hne he
  · exact (List.filter_sublist m).map Prod.fst |>.nodup h

theorem mapGet_eq_none_iff {V : Type} (m : GoMap V) (k : String) :
    mapGet m k = none ↔ k ∉ mapKeys m := by
  induction m with
  | nil => simp [mapGet, mapKeys]
  | cons e rest ih =>
    by_cases he : e.1 = k
    · simp [mapGet, mapKeys, he]
    · have hk : ¬ k = e.1 := fun h => he h.symm
      simp only [mapGet, he, if_false, ih, mapKeys, List.map_cons, List.mem_cons, hk, false_or]

theorem mapGet_map_pair {V : Type} (f : String → V) (l : List String) (k : String) :
    mapGet (l.map (fun a => (a, f a))) k = if k ∈ l then some (f k) else none := by
  induction l with
  | nil => simp [mapGet]
  | cons a rest ih =>
    by_cases ha : a = k
    · simp [mapGet, ha]
    · have hk : ¬ k = a := fun h => ha h.symm
      simp [mapGet, ha, hk, ih]

/-! ## Lemmas on the fold form of the parse loop -/

theorem fill_nil {V : Type} (L : Lib V) (data : GoMap V) : fill L [] data = data := rfl

theorem fill_cons {V : Type} (L : Lib V) (kv : String × String) (kvs : List (String × String))
    (data : GoMap V) :
    fill L (kv :: kvs) data = fill L kvs (mapSet data kv.1 (L.ParseFloat kv.2).1) := rfl

theorem mem_mapKeys_fill {V : Type} (L : Lib V) (kvs : List (String × String)) (data : GoMap V)
    (k : String) : k ∈ mapKeys (fill L kvs data) ↔ k ∈ kvs.map Prod.fst ∨ k ∈ mapKeys data := by
  induction kvs generalizing data with
  | nil => simp [fill_nil]
  | cons kv rest ih =>
    rw [fill_cons, ih, mem_mapKeys_mapSet]
    simp only [List.map_cons, List.mem_cons]
    tauto

theorem nodup_mapKeys_fill {V : Type} (L : Lib V) (kvs : List (String × String))
    (data : GoMap V) (h : (mapKeys data).Nodup) : (mapKeys (fill L kvs data)).Nodup := by
  induction kvs generalizing data with
  | nil => simpa [fill_nil] using h
  | cons kv rest ih =>
    rw [fill_cons]
    exact ih _ (nodup_mapKeys_mapSet data kv.1 _ h)

theorem mapGet_fill {V : Type} (L : Lib V) (value : String → String) (keys : List String)
    (data : GoMap V) (k : String) :
    mapGet (fill L (keys.map (fun a => (a, value a))) data) k =
      if k ∈ keys then some (L.ParseFloat (value k)).1 else mapGet data k := by
  induction keys generalizing data with
  | nil => simp [fill_nil]
  | cons a rest ih =>
    rw [List.map_cons, fill_cons, ih]
    by_cases hr : k ∈ rest
    · simp [hr]
    · by_cases ha : k = a
      · subst ha
        simp [hr, mapGet_mapSet_self]
      · simp [hr, ha, mapGet_mapSet_ne _ _ _ _ ha]

/-! ## Lemmas on the loops of `GetRedisData` -/

theorem scanLoop_of_run {σ : Type} (R : Redis σ) {s : σ} {c : Nat} {pre : List (List String)}
    {last : List String} {s1 : σ} (h : ScanRun R s c pre last s1) :
    ∀ fuel, pre.length + 1 ≤ fuel → scanLoop R fuel s c = some (last, s1) := by
  induction h with
  | last h h0 =>
    intro fuel hf
    obtain ⟨n, rfl⟩ : ∃ n, fuel = n + 1 := ⟨fuel - 1, by omega⟩
    simp [scanLoop, h, h0]
  | more h h0 _ ih =>
    intro fuel hf
    obtain ⟨n, rfl⟩ : ∃ n, fuel = n + 1 := ⟨fuel - 1, by omega⟩
    simp only [scanLoop, h, h0, if_false]
    exact ih n (by simpa using hf)

theorem parseLoop_strings {V : Type} (L : Lib V) (values : List (Option String)) :
    ∀ (keys : List String) (vs : List String) (i : Nat) (data : GoMap V),
      vs.length = keys.length → values.drop i = vs.map some →
      parseLoop L values keys i data = .ok (fill L (keys.zip vs) data) := by
  intro keys
  induction keys with
  | nil =>
    intro vs i data _ _
    simp [parseLoop, fill_nil]
  | cons key rest ih =>
    intro vs i data hlen hdrop
    cases vs with
    | nil => simp at hlen
    | cons v vs1 =>
      have hi : values[i]? = some (some v) := by
        have := congrArg (fun l => l[0]?) hdrop
        simpa using this
      have hrest : values.drop (i + 1) = vs1.map some := by
        have := congrArg (fun l => l.drop 1) hdrop
        simpa [List.drop_drop, Nat.add_comm] using this
      simp only [parseLoop, hi, List.zip_cons_cons, fill_cons]
      exact ih vs1 (i + 1) _ (by simpa using hlen) hrest

/-- A values list with one string per key is the image of a list of strings. -/
theorem strings_of_no_nil (vals : List (Option String)) (h : ∀ v ∈ vals, v ≠ none) :
    ∃ vs : List String, vals = vs.map some := by
  induction vals with
  | nil => exact ⟨[], rfl⟩
  | cons v rest ih =>
    obtain ⟨vs, hvs⟩ := ih (fun x hx => h x (List.mem_cons_of_mem _ hx))
    cases v with
    | none => exact absurd rfl (h none (List.mem_cons_self _ _))
    | some a => exact ⟨a :: vs, by simp [hvs]⟩

theorem mem_pairs_fill {V : Type} (L : Lib V) (kvs : List (String × String)) (data : GoMap V)
    (k : String) (v : V) (h : mapGet (fill L kvs data) k = some v) :
    (∃ t, (k, t) ∈ kvs ∧ v = (L.ParseFloat t).1) ∨ mapGet data k = some v := by
  induction kvs generalizing data with
  | nil => exact Or.inr h
  | cons kv rest ih =>
    rw [fill_cons] at h
    rcases ih _ h with ⟨t, ht, hv⟩ | h1
    · exact Or.inl ⟨t, List.mem_cons_of_mem _ ht, hv⟩
    · by_cases hk : k = kv.1
      · subst hk
        rw [mapGet_mapSet_self] at h1
        exact Or.inl ⟨kv.2, List.mem_cons_self _ _, (Option.some.inj h1).symm⟩
      · rw [mapGet_mapSet_ne _ _ _ _ hk] at h1
        exact Or.inr h1

/-! ## Lemmas on the encoder -/

theorem encodeMembers_congr {V : Type} (L : Lib V) (d1 d2 : GoMap V) (ks : List String)
    (h : ∀ k ∈ ks, mapGet d1 k = mapGet d2 k) :
    encodeMembers L d1 ks = encodeMembers L d2 ks := by
  induction ks with
  | nil => rfl
  | cons k rest ih =>
    have hk : encodeMember L d1 k = encodeMember L d2 k := by
      simp only [encodeMember, h k (List.mem_cons_self _ _)]
    simp only [encodeMembers, hk, ih (fun a ha => h a (List.mem_cons_of_mem _ ha))]

theorem encodeMembers_isSome {V : Type} (L : Lib V) (d : GoMap V) (ks : List String)
    (h : ∀ k ∈ ks, ∃ v, mapGet d k = some v ∧ (L.encodeFloat v).isSome = true) :
    ∃ parts, encodeMembers L d ks = some parts := by
  induction ks with
  | nil => exact ⟨[], rfl⟩
  | cons k rest ih =>
    obtain ⟨v, hv, he⟩ := h k (List.mem_cons_self _ _)
    obtain ⟨t, ht⟩ := Option.isSome_iff_exists.mp he
    obtain ⟨ps, hps⟩ := ih (fun a ha => h a (List.mem_cons_of_mem _ ha))
    exact ⟨(L.encodeString k ++ ":" ++ t) :: ps,
      by simp only [encodeMembers, encodeMember, hv, ht, hps]⟩

theorem sortKeys_perm {l1 l2 : List String} (h : l1.Perm l2) : sortKeys l1 = sortKeys l2 := by
  unfold sortKeys
  apply List.eq_of_perm_of_sorted (r := fun a b : String => a ≤ b)
  · exact (List.perm_insertionSort _ l1).trans (h.trans (List.perm_insertionSort _ l2).symm)
  · exact List.sorted_insertionSort _ l1
  · exact List.sorted_insertionSort _ l2

theorem mem_sortKeys (ks : List String) (k : String) : k ∈ sortKeys ks ↔ k ∈ ks :=
  (List.perm_insertionSort _ ks).mem_iff

/-- The encoding depends only on the mapping a Go map stands for. -/
theorem Marshal_congr {V : Type} (L : Lib V) (d1 d2 : GoMap V)
    (hk : (mapKeys d1).Perm (mapKeys d2)) (hv : ∀ k, mapGet d1 k = mapGet d2 k) :
    Marshal L d1 = Marshal L d2 := by
  unfold Marshal
  rw [sortKeys_perm hk, encodeMembers_congr L d1 d2 _ (fun k _ => hv k)]

/-- The encoder reports no error when every stored value is encodable. -/
theorem Marshal_no_error {V : Type} (L : Lib V) (d : GoMap V)
    (h : ∀ k v, mapGet d k = some v → (L.encodeFloat v).isSome = true) :
    (Marshal L d).2 = false := by
  have hall : ∀ k ∈ sortKeys (mapKeys d), ∃ v, mapGet d k = some v ∧
      (L.encodeFloat v).isSome = true := by
    intro k hk
    rw [mem_sortKeys] at hk
    cases hg : mapGet d k with
    | none => exact absurd hk ((mapGet_eq_none_iff d k).mp hg)
    | some v => exact ⟨v, rfl, h k v hg⟩
  obtain ⟨parts, hp⟩ := encodeMembers_isSome L d _ hall
  simp only [Marshal, hp]

theorem Marshal_empty {V : Type} (L : Lib V) : Marshal L [] = ("\x7b\x7d", false) := by
  simp [Marshal, mapKeys, sortKeys, encodeMembers, String.intercalate]

theorem encodeMembers_eq_map {V : Type} (L : Lib V) (d : GoMap V) (num : String → V)
    (ks : List String)
    (h : ∀ k ∈ ks, mapGet d k = some (num k) ∧ (L.encodeFloat (num k)).isSome = true) :
    encodeMembers L d ks =
      some (ks.map (fun k => L.encodeString k ++ ":" ++ (L.encodeFloat (num k)).getD "")) := by
  induction ks with
  | nil => rfl
  | cons k rest ih =>
    obtain ⟨hv, he⟩ := h k (List.mem_cons_self _ _)
    obtain ⟨t, ht⟩ := Option.isSome_iff_exists.mp he
    simp only [encodeMembers, encodeMember, hv, ht,
      ih (fun a ha => h a (List.mem_cons_of_mem _ ha)), List.map_cons, Option.getD_some]

theorem encodeMembers_none {V : Type} (L : Lib V) (d : GoMap V) (k : String) (v : V)
    (hv : mapGet d k = some v) (he : L.encodeFloat v = none) :
    ∀ ks : List String, k ∈ ks → encodeMembers L d ks = none := by
  intro ks
  induction ks with
  | nil => intro h; simp at h
  | cons a rest ih =>
    intro h
    rcases List.mem_cons.mp h with rfl | hr
    · simp only [encodeMembers, encodeMember, hv, he]
    · simp only [encodeMembers, ih hr]
      cases encodeMember L d a <;> rfl

/-- The encoding of a map with the keys `keys` and encodable values `num` is the object
of the specification. -/
theorem Marshal_eq_specObject {V : Type} (L : Lib V) (d : GoMap V) (keys : List String)
    (num : String → V) (hnd : (mapKeys d).Nodup) (hmem : ∀ k, k ∈ mapKeys d ↔ k ∈ keys)
    (hval : ∀ k ∈ keys, mapGet d k = some (num k))
    (henc : ∀ k ∈ keys, (L.encodeFloat (num k)).isSome = true) :
    Marshal L d = (specObject L keys num, false) := by
  have hperm : (mapKeys d).Perm keys.dedup :=
    (List.perm_ext_iff_of_nodup hnd (List.nodup_dedup _)).mpr
      (fun k => by rw [hmem, List.mem_dedup])
  have hall : ∀ k ∈ sortKeys keys.dedup,
      mapGet d k = some (num k) ∧ (L.encodeFloat (num k)).isSome = true := by
    intro k hk
    rw [mem_sortKeys, List.mem_dedup] at hk
    exact ⟨hval k hk, henc k hk⟩
  unfold Marshal specObject
  rw [sortKeys_perm hperm, encodeMembers_eq_map L d num _ hall]

/-- The encoder returns no bytes and an error when a stored value is not encodable. -/
theorem Marshal_fails {V : Type} (L : Lib V) (d : GoMap V) (k : String) (v : V)
    (hv : mapGet d k = some v) (he : L.encodeFloat v = none) :
    Marshal L d = ("", true) := by
  have hk : k ∈ sortKeys (mapKeys d) := by
    rw [mem_sortKeys]
    by_contra hn
    rw [(mapGet_eq_none_iff d k).mpr hn] at hv
    exact absurd hv (by simp)
  unfold Marshal
  rw [encodeMembers_none L d k v hv he _ hk]

/-! ## Snapshot production along a scan run -/

theorem GetRedisData_of_run {σ V : Type} (S : Sys σ V) (fuel : Nat) (s s1 s2 : σ)
    (pre : List (List String)) (keys : List String) (m : MGetReply) (vs : List String)
    (henv : S.dotenv = true) (hrun : ScanRun S.redis s 0 pre keys s1)
    (hfuel : pre.length + 1 ≤ fuel) (hget : S.redis.MGet s1 keys = (m, s2))
    (hlen : vs.length = keys.length) (hvals : m.vals = vs.map some) :
    GetRedisData S fuel s = .ok ((Marshal S.lib (fill S.lib (keys.zip vs) [])).1, s2) := by
  have hloop := scanLoop_of_run S.redis hrun fuel hfuel
  have hparse := parseLoop_strings S.lib m.vals keys vs 0 [] hlen (by simpa using hvals)
  simp only [GetRedisData, henv, hloop, hget, hparse]
  rfl

theorem zip_map_value (value : String → String) (keys : List String) :
    keys.zip (keys.map value) = keys.map (fun a => (a, value a)) := by
  induction keys with
  | nil => rfl
  | cons a rest ih => simp [ih]

/-- The map built by the parse loop from a page `keys` whose values are given by
`value`: its keys are the page and each key holds its own parsed value. -/
theorem fill_page {V : Type} (L : Lib V) (value : String → String) (keys : List String) :
    (mapKeys (fill L (keys.zip (keys.map value)) ([] : GoMap V))).Nodup ∧
    (∀ k, k ∈ mapKeys (fill L (keys.zip (keys.map value)) ([] : GoMap V)) ↔ k ∈ keys) ∧
    ∀ k, mapGet (fill L (keys.zip (keys.map value)) ([] : GoMap V)) k =
      if k ∈ keys then some (L.ParseFloat (value k)).1 else none := by
  refine ⟨nodup_mapKeys_fill L _ [] (by simp [mapKeys]), ?_, ?_⟩
  · intro k
    rw [mem_mapKeys_fill, List.map_fst_zip _ _ (by simp)]
    simp [mapKeys]
  · intro k
    rw [zip_map_value, mapGet_fill]
    simp [mapGet]

/-! ## Lemmas on the broadcast pass -/

theorem sendRedisData_ok {σ V : Type} (S : Sys σ V) (writeFails : Conn → Bool) (fuel : Nat)
    (w : World σ) (c : Conn) (p : String) (s1 : σ)
    (h : GetRedisData S fuel w.store = .ok (p, s1)) :
    sendRedisData S writeFails fuel w c =
      .ok { w with store := s1, wire := w.wire ++ [⟨c, p, writeFails c⟩] } := by
  simp only [sendRedisData, h]

/-- A pass over `cs` when snapshot production succeeds in every store state of an
invariant `I`: the pass finishes, the registry is untouched and the writes made are one
per enumerated session, in order, each failing exactly when its connection fails. -/
theorem rangeSend_total {σ V : Type} (S : Sys σ V) (writeFails : Conn → Bool) (fuel : Nat)
    (I : σ → Prop)
    (hI : ∀ s, I s → ∃ p s1, GetRedisData S fuel s = .ok (p, s1) ∧ I s1) :
    ∀ (cs : List Conn) (w : World σ), I w.store →
      ∃ w1 evs, rangeSend S writeFails fuel cs w = .ok w1 ∧ I w1.store ∧
        w1.connections = w.connections ∧ w1.wire = w.wire ++ evs ∧
        evs.map WriteEvent.conn = cs ∧ ∀ e ∈ evs, e.failed = writeFails e.conn := by
  intro cs
  induction cs with
  | nil =>
    intro w h0
    exact ⟨w, [], rfl, h0, rfl, by simp, rfl, by simp⟩
  | cons c rest ih =>
    intro w h0
    obtain ⟨p, s1, hp, h1⟩ := hI w.store h0
    obtain ⟨w1, evs, hr, hi, hc, hw, hm, hf⟩ :=
      ih { w with store := s1, wire := w.wire ++ [⟨c, p, writeFails c⟩] } h1
    refine ⟨w1, ⟨c, p, writeFails c⟩ :: evs, ?_, hi, hc, ?_, ?_, ?_⟩
    · simp only [rangeSend, sendRedisData_ok S writeFails fuel w c p s1 hp, hr]
    · simpa using hw
    · simp [hm]
    · intro e he
      rcases List.mem_cons.mp he with rfl | he1
      · rfl
      · exact hf e he1

/-- A pass over `cs` when snapshot production yields the same payload `p` in every
store state of an invariant `I`. -/
theorem rangeSend_payload {σ V : Type} (S : Sys σ V) (writeFails : Conn → Bool) (fuel : Nat)
    (I : σ → Prop) (p : String)
    (hI : ∀ s, I s → ∃ s1, GetRedisData S fuel s = .ok (p, s1) ∧ I s1) :
    ∀ (cs : List Conn) (w : World σ), I w.store →
      ∃ w1, rangeSend S writeFails fuel cs w = .ok w1 ∧ I w1.store ∧
        w1.connections = w.connections ∧
        w1.wire = w.wire ++ cs.map (fun c => ⟨c, p, writeFails c⟩) := by
  intro cs
  induction cs with
  | nil =>
    intro w h0
    exact ⟨w, rfl, h0, rfl, by simp⟩
  | cons c rest ih =>
    intro w h0
    obtain ⟨s1, hp, h1⟩ := hI w.store h0
    obtain ⟨w1, hr, hi, hc, hw⟩ :=
      ih { w with store := s1, wire := w.wire ++ [⟨c, p, writeFails c⟩] } h1
    refine ⟨w1, ?_, hi, hc, ?_⟩
    · simp only [rangeSend, sendRedisData_ok S writeFails fuel w c p s1 hp, hr]
    · simpa using hw

/-- With an empty first page and next cursor 0 the payload is the empty object. -/
theorem GetRedisData_empty_page {σ V : Type} (S : Sys σ V) (fuel : Nat) (s : σ)
    (henv : S.dotenv = true) (hfuel : 1 ≤ fuel)
    (hkeys : (S.redis.Scan s 0).1.keys = []) (hcur : (S.redis.Scan s 0).1.cursor = 0) :
    GetRedisData S fuel s =
      .ok ("\x7b\x7d", (S.redis.MGet (S.redis.Scan s 0).2 []).2) := by
  obtain ⟨n, rfl⟩ : ∃ n, fuel = n + 1 := ⟨fuel - 1, by omega⟩
  simp only [GetRedisData, henv, scanLoop, hcur, hkeys, parseLoop, Marshal_empty]
  rfl

/-! ## Snapshot production: keys -/

/-- C1, evaluated on a keyspace scanned in two pages `[a]` then `[b]`: the payload of
`GetRedisData` holds key `b` only; key `a` of the first page is missing. -/
theorem GetRedisData_two_pages_drops_first :
    GetRedisData sampleSys 2 twoBatchStore =
      .ok ("\x7b\"b\":2\x7d", ⟨[], [("a", "1"), ("b", "2")]⟩) := by
  decide!

/-- C10 is violated at `infPageStore`: the terminal page is `[k]`, the bulk get returns
one string per requested key, and the value of `k` parses to an infinity; `json.Marshal`
fails, and the payload is empty, without key `k`. -/
theorem GetRedisData_terminal_page_counterexample :
    GetRedisData sampleSys 2 infPageStore = .ok ("", ⟨[], [("a", "1"), ("k", "Inf")]⟩) := by
  decide!

/-- C10 amended: when the scan loop goes through pages `pre` and then a terminal page
`last`, the bulk get returns one string per requested key, and every returned value
parses to a number the JSON encoder accepts, the payload of `GetRedisData` is the JSON
object whose members are exactly the keys of `last`, each once, every key with the number
parsed from a value returned for it; keys of the pages `pre` have no member of their
own. -/
theorem GetRedisData_terminal_page_object {σ V : Type} (S : Sys σ V) (fuel : Nat)
    (s s1 s2 : σ) (pre : List (List String)) (last : List String) (m : MGetReply)
    (henv : S.dotenv = true) (hrun : ScanRun S.redis s 0 pre last s1)
    (hfuel : pre.length + 1 ≤ fuel) (hget : S.redis.MGet s1 last = (m, s2))
    (hlen : m.vals.length = last.length) (hstr : ∀ v ∈ m.vals, v ≠ none)
    (henc : ∀ t, some t ∈ m.vals →
      (S.lib.encodeFloat (S.lib.ParseFloat t).1).isSome = true) :
    ∃ num : String → V,
      GetRedisData S fuel s = .ok (specObject S.lib last num, s2) ∧
      ∀ k ∈ last, ∃ t, (k, some t) ∈ last.zip m.vals ∧ num k = (S.lib.ParseFloat t).1 := by
  obtain ⟨vs, hvs⟩ := strings_of_no_nil m.vals hstr
  have hl : vs.length = last.length := by
    rw [← hlen, hvs, List.length_map]
  have hres := GetRedisData_of_run S fuel s s1 s2 pre last m vs henv hrun hfuel hget hl hvs
  have hmem : ∀ k, k ∈ mapKeys (fill S.lib (last.zip vs) ([] : GoMap V)) ↔ k ∈ last := by
    intro k
    rw [mem_mapKeys_fill, List.map_fst_zip _ _ (by omega)]
    simp [mapKeys]
  have hnd : (mapKeys (fill S.lib (last.zip vs) ([] : GoMap V))).Nodup :=
    nodup_mapKeys_fill S.lib _ [] (by simp [mapKeys])
  have hsrc : ∀ k ∈ last, ∃ t, (k, some t) ∈ last.zip m.vals ∧
      mapGet (fill S.lib (last.zip vs) ([] : GoMap V)) k = some (S.lib.ParseFloat t).1 := by
    intro k hk
    cases hg : mapGet (fill S.lib (last.zip vs) ([] : GoMap V)) k with
    | none => exact absurd ((hmem k).mpr hk) ((mapGet_eq_none_iff _ k).mp hg)
    | some v =>
      rcases mem_pairs_fill S.lib _ _ k v hg with ⟨t, ht, rfl⟩ | h
      · refine ⟨t, ?_, rfl⟩
        rw [hvs, List.zip_map_right]
        exact List.mem_map.mpr ⟨(k, t), ht, rfl⟩
      · simp [mapGet] at h
  refine ⟨fun k => (mapGet (fill S.lib (last.zip vs) ([] : GoMap V)) k).getD S.lib.zero, ?_, ?_⟩
  · rw [hres, Marshal_eq_specObject S.lib _ last _ hnd hmem]
    · intro k hk
      obtain ⟨t, _, ht⟩ := hsrc k hk
      simp [ht]
    · intro k hk
      obtain ⟨t, hz, ht⟩ := hsrc k hk
      simp only [ht, Option.getD_some]
      exact henc t (List.of_mem_zip hz).2
  · intro k hk
    obtain ⟨t, hz, ht⟩ := hsrc k hk
    exact ⟨t, hz, by simp [ht]⟩

/-- C10 amended at `twoBatchStore`: pages `[a]` then `[b]`. -/
theorem GetRedisData_terminal_page_object_witness :
    ∃ num : String → Num,
      GetRedisData sampleSys 2 twoBatchStore =
        .ok (specObject sampleSys.lib ["b"] num, ⟨[], [("a", "1"), ("b", "2")]⟩) ∧
      ∀ k ∈ ["b"], ∃ t, (k, some t) ∈ ["b"].zip [some "2"] ∧
        num k = (sampleSys.lib.ParseFloat t).1 :=
  GetRedisData_terminal_page_object sampleSys 2 twoBatchStore
    ⟨[], [("a", "1"), ("b", "2")]⟩ ⟨[], [("a", "1"), ("b", "2")]⟩
    [["a"]] ["b"] ⟨[some "2"], false⟩ rfl
    (ScanRun.more (r := ⟨["a"], 7, false⟩) rfl (by decide)
      (ScanRun.last (r := ⟨["b"], 0, false⟩) rfl rfl))
    (by decide) (by decide!) (by decide) (by decide)
    (fun t ht => by
      have h2 : t = "2" := by simpa using ht
      subst h2
      decide!)

/-! ## Snapshot production: values -/

/-- C2: when the whole keyspace comes in a single page (next cursor 0) and every value
is a well-formed decimal, `GetRedisData` returns the JSON encoding of the mapping of the
specification, the encoder reports no error, and that mapping holds the parsed value of
every key of the page and nothing else. -/
theorem GetRedisData_single_page {σ V : Type} (S : Sys σ V) (fuel : Nat) (s s1 s2 : σ)
    (r : ScanReply) (m : MGetReply) (value : String → String)
    (henv : S.dotenv = true) (hfuel : 1 ≤ fuel)
    (hscan : S.redis.Scan s 0 = (r, s1)) (h0 : r.cursor = 0)
    (hget : S.redis.MGet s1 r.keys = (m, s2))
    (hvals : m.vals = r.keys.map (fun k => some (value k)))
    (hwf : ∀ k ∈ r.keys, WellFormed S.lib (value k)) :
    GetRedisData S fuel s = .ok ((Marshal S.lib (specSnapshot S.lib r.keys value)).1, s2) ∧
      (Marshal S.lib (specSnapshot S.lib r.keys value)).2 = false ∧
      ∀ k, mapGet (specSnapshot S.lib r.keys value) k =
        if k ∈ r.keys then some (S.lib.ParseFloat (value k)).1 else none := by
  have hspec : ∀ k, mapGet (specSnapshot S.lib r.keys value) k =
      if k ∈ r.keys then some (S.lib.ParseFloat (value k)).1 else none := by
    intro k
    simp only [specSnapshot, mapGet_map_pair, List.mem_dedup]
  have hkeys : mapKeys (specSnapshot S.lib r.keys value) = r.keys.dedup := by
    simp [specSnapshot, mapKeys, Function.comp_def]
  obtain ⟨hnd, hmem, hval⟩ := fill_page S.lib value r.keys
  have hrun : ScanRun S.redis s 0 [] r.keys s1 := ScanRun.last hscan h0
  have hres := GetRedisData_of_run S fuel s s1 s2 [] r.keys m (r.keys.map value) henv hrun
    (by simpa using hfuel) hget (by simp) (by simpa using hvals)
  have hperm : (mapKeys (fill S.lib (r.keys.zip (r.keys.map value)) ([] : GoMap V))).Perm
      (mapKeys (specSnapshot S.lib r.keys value)) := by
    rw [hkeys]
    exact (List.perm_ext_iff_of_nodup hnd (List.nodup_dedup _)).mpr
      (fun k => by rw [hmem, List.mem_dedup])
  have hcongr := Marshal_congr S.lib _ _ hperm (fun k => by rw [hval, hspec])
  refine ⟨by rw [hres, hcongr], ?_, hspec⟩
  apply Marshal_no_error
  intro k v hv
  rw [hspec] at hv
  by_cases hk : k ∈ r.keys
  · rw [if_pos hk] at hv
    rw [← Option.some.inj hv]
    exact (hwf k hk).2
  · rw [if_neg hk] at hv
    exact absurd hv (by simp)

/-- C2 at `happyStore`, the happy-path scenario: the payload is the object with
`a` at 1.5 and `b` at 2. -/
theorem GetRedisData_single_page_witness :
    (GetRedisData sampleSys 1 happyStore =
        .ok ((Marshal sampleSys.lib (specSnapshot sampleSys.lib ["a", "b"] happyValue)).1,
          happyStore) ∧
      (Marshal sampleSys.lib (specSnapshot sampleSys.lib ["a", "b"] happyValue)).2 = false ∧
      ∀ k, mapGet (specSnapshot sampleSys.lib ["a", "b"] happyValue) k =
        if k ∈ ["a", "b"] then some (sampleSys.lib.ParseFloat (happyValue k)).1 else none) ∧
    (Marshal sampleSys.lib (specSnapshot sampleSys.lib ["a", "b"] happyValue)).1 =
      "\x7b\"a\":1.5,\"b\":2\x7d" :=
  ⟨GetRedisData_single_page sampleSys 1 happyStore happyStore happyStore
      ⟨["a", "b"], 0, false⟩ ⟨[some "1.5", some "2"], false⟩ happyValue rfl (by decide)
      (by decide!) rfl (by decide!) (by decide!) (by decide!),
    by decide!⟩

/-- C3 is violated at `malformedInfStore`: the value of `x` cannot be parsed, the value of
`y` parses to an infinity, `json.Marshal` fails, and the payload is empty: it does not map
`x` to 0. -/
theorem GetRedisData_malformed_value_counterexample :
    GetRedisData sampleSys 1 malformedInfStore = .ok ("", malformedInfStore) := by
  decide!

/-- C3 amended: let `bad` be a key of the page that reaches the parse loop whose value
`ParseFloat` rejects with a syntax error.  When every value of the page parses to a number
the JSON encoder accepts, the payload of `GetRedisData` is the JSON object in which `bad`
holds 0 and every other key of the page its own parsed value.  When some value of the page
parses to a number the encoder rejects, the payload is empty.  The object has a member
for `bad`. -/
theorem GetRedisData_syntax_error_value_is_zero {σ V : Type} (S : Sys σ V) (fuel : Nat)
    (s s1 s2 : σ) (pre : List (List String)) (keys : List String) (m : MGetReply)
    (value : String → String) (bad : String)
    (henv : S.dotenv = true) (hrun : ScanRun S.redis s 0 pre keys s1)
    (hfuel : pre.length + 1 ≤ fuel) (hget : S.redis.MGet s1 keys = (m, s2))
    (hvals : m.vals = keys.map (fun k => some (value k))) (hbad : bad ∈ keys)
    (hsyn : (S.lib.ParseFloat (value bad)).2 = some NumError.ErrSyntax) :
    ((∀ k ∈ keys, (S.lib.encodeFloat (S.lib.ParseFloat (value k)).1).isSome = true) →
        GetRedisData S fuel s =
          .ok (specObject S.lib keys
            (fun k => if k = bad then S.lib.zero else (S.lib.ParseFloat (value k)).1), s2)) ∧
      ((∃ k ∈ keys, S.lib.encodeFloat (S.lib.ParseFloat (value k)).1 = none) →
        GetRedisData S fuel s = .ok ("", s2)) ∧
      bad ∈ sortKeys keys.dedup := by
  obtain ⟨hnd, hmem, hval⟩ := fill_page S.lib value keys
  have hres := GetRedisData_of_run S fuel s s1 s2 pre keys m (keys.map value) henv hrun hfuel
    hget (by simp) (by simpa using hvals)
  have hnum : ∀ k, (if k = bad then S.lib.zero else (S.lib.ParseFloat (value k)).1) =
      (S.lib.ParseFloat (value k)).1 := by
    intro k
    by_cases hk : k = bad
    · rw [if_pos hk, hk, S.lib.ParseFloat_syntax _ hsyn]
    · rw [if_neg hk]
  refine ⟨?_, ?_, by rw [mem_sortKeys, List.mem_dedup]; exact hbad⟩
  · intro henc
    rw [hres, Marshal_eq_specObject S.lib _ keys _ hnd hmem]
    · intro k hk
      rw [hval, if_pos hk, hnum]
    · intro k hk
      rw [hnum]
      exact henc k hk
  · rintro ⟨k, hk, he⟩
    have hv := hval k
    rw [if_pos hk] at hv
    rw [hres, Marshal_fails S.lib _ k _ hv he]

/-- C3 amended at `malformedStore`, the malformed-value scenario: the payload is the
object with `x` at 0 and `y` at 3.1. -/
theorem GetRedisData_syntax_error_value_is_zero_witness :
    GetRedisData sampleSys 1 malformedStore =
        .ok (specObject sampleSys.lib ["x", "y"]
          (fun k => if k = "x" then sampleSys.lib.zero
            else (sampleSys.lib.ParseFloat (malformedValue k)).1), malformedStore) ∧
      specObject sampleSys.lib ["x", "y"]
          (fun k => if k = "x" then sampleSys.lib.zero
            else (sampleSys.lib.ParseFloat (malformedValue k)).1) =
        "\x7b\"x\":0,\"y\":3.1\x7d" :=
  ⟨(GetRedisData_syntax_error_value_is_zero sampleSys 1 malformedStore malformedStore
      malformedStore [] ["x", "y"] ⟨[some "not-a-number", some "3.1"], false⟩ malformedValue
      "x" rfl (ScanRun.last (r := ⟨["x", "y"], 0, false⟩) rfl rfl) (by decide) (by decide!)
      (by decide!) (by decide) (by decide!)).1 (by decide!),
    by decide!⟩

/-- C4, evaluated on a page holding key `gone` for which the bulk get returns nil:
`GetRedisData` panics at the type assertion `values[i].(string)` and returns no
payload. -/
theorem GetRedisData_nil_value_panics :
    GetRedisData sampleSys 1 expiredStore =
      .panic "interface conversion: interface \x7b\x7d is nil, not string" := by
  decide!

/-! ## Upstream errors -/

/-- C5 is violated at `outageStore`: the first scan request returns an error, and the
tick still writes a message, the empty object, to the registered session. -/
theorem fetchDataTick_scan_error_counterexample :
    fetchDataTick sampleSys (fun _ => false) 1 ⟨outageStore, [7], []⟩ =
      .ok ⟨⟨[], [("a", "1")]⟩, [7], [⟨7, "\x7b\x7d", false⟩]⟩ := by
  decide!

/-- C5 amended: when the initial scan request returns an error (no page, cursor 0),
`GetRedisData` still returns a payload, the empty object, and `sendRedisData` writes
that payload to the session. -/
theorem sendRedisData_scan_error_writes_empty_object {σ V : Type} (S : Sys σ V)
    (writeFails : Conn → Bool) (fuel : Nat) (w : World σ) (c : Conn)
    (henv : S.dotenv = true) (hfuel : 1 ≤ fuel)
    (herr : (S.redis.Scan w.store 0).1 = ⟨[], 0, true⟩) :
    GetRedisData S fuel w.store =
        .ok ("\x7b\x7d", (S.redis.MGet (S.redis.Scan w.store 0).2 []).2) ∧
      sendRedisData S writeFails fuel w c =
        .ok { w with
          store := (S.redis.MGet (S.redis.Scan w.store 0).2 []).2,
          wire := w.wire ++ [⟨c, "\x7b\x7d", writeFails c⟩] } := by
  have hget := GetRedisData_empty_page S fuel w.store henv hfuel (by rw [herr]) (by rw [herr])
  exact ⟨hget, sendRedisData_ok S writeFails fuel w c _ _ hget⟩

/-- C5 amended at `outageStore`. -/
theorem sendRedisData_scan_error_writes_empty_object_witness :
    GetRedisData sampleSys 1 outageStore =
        .ok ("\x7b\x7d", (sampleSys.redis.MGet (sampleSys.redis.Scan outageStore 0).2 []).2) ∧
      sendRedisData sampleSys (fun _ => false) 1 ⟨outageStore, [7], []⟩ 7 =
        .ok { (⟨outageStore, [7], []⟩ : World Mock) with
          store := (sampleSys.redis.MGet (sampleSys.redis.Scan outageStore 0).2 []).2,
          wire := [] ++ [⟨7, "\x7b\x7d", false⟩] } :=
  sendRedisData_scan_error_writes_empty_object sampleSys (fun _ => false) 1
    ⟨outageStore, [7], []⟩ 7 rfl (by decide) rfl

/-! ## The broadcast pass -/

/-- C6 is violated at `changingStore`: the store changes between the requests of the two
sessions, and the two sessions are written different payloads in the same pass. -/
theorem fetchDataTick_payloads_differ_counterexample :
    fetchDataTick sampleSys (fun _ => false) 1 ⟨changingStore, [1, 2], []⟩ =
      .ok ⟨⟨[], [("a", "1")]⟩, [1, 2],
        [⟨1, "\x7b\x7d", false⟩, ⟨2, "\x7b\"a\":1\x7d", false⟩]⟩ := by
  decide!

/-- C6 amended: `sendRedisData` asks for a payload once per session; when snapshot
production leaves the store as it found it, one pass offers the same payload to every
session of the registry. -/
theorem fetchDataTick_same_payload_on_static_store {σ V : Type} (S : Sys σ V)
    (writeFails : Conn → Bool) (fuel : Nat) (w : World σ) (p : String)
    (hstatic : GetRedisData S fuel w.store = .ok (p, w.store)) :
    fetchDataTick S writeFails fuel w =
      .ok { w with wire := w.wire ++ w.connections.map (fun c => ⟨c, p, writeFails c⟩) } := by
  obtain ⟨w1, hr, hs, hc, hw⟩ := rangeSend_payload S writeFails fuel (fun s => s = w.store) p
    (fun s hs => ⟨w.store, by rw [hs]; exact hstatic, rfl⟩) w.connections w rfl
  unfold fetchDataTick
  rw [hr]
  cases w1
  cases w
  simp_all

/-- C6 amended at `happyStore` with three sessions. -/
theorem fetchDataTick_same_payload_on_static_store_witness :
    fetchDataTick sampleSys (fun c => c == 2) 1 ⟨happyStore, [1, 2, 3], []⟩ =
      .ok { (⟨happyStore, [1, 2, 3], []⟩ : World Mock) with
        wire := [] ++ [1, 2, 3].map
          (fun c => ⟨c, "\x7b\"a\":1.5,\"b\":2\x7d", (fun c => c == 2) c⟩) } :=
  fetchDataTick_same_payload_on_static_store sampleSys (fun c => c == 2) 1
    ⟨happyStore, [1, 2, 3], []⟩ "\x7b\"a\":1.5,\"b\":2\x7d" (by decide!)

/-- C7: whatever connections fail on write, when snapshot production succeeds in the
store states of an invariant `I`, one pass finishes and makes exactly one write per
registered session, in registry order; each write fails exactly when its connection
fails, so every session whose connection does not fail receives its message. -/
theorem fetchDataTick_writes_to_every_session {σ V : Type} (S : Sys σ V)
    (writeFails : Conn → Bool) (fuel : Nat) (I : σ → Prop)
    (hI : ∀ s, I s → ∃ p s1, GetRedisData S fuel s = .ok (p, s1) ∧ I s1)
    (w : World σ) (h0 : I w.store) :
    ∃ w1 evs, fetchDataTick S writeFails fuel w = .ok w1 ∧ w1.wire = w.wire ++ evs ∧
      evs.map WriteEvent.conn = w.connections ∧
      (∀ e ∈ evs, e.failed = writeFails e.conn) ∧
      (∀ c ∈ w.connections, writeFails c = false →
        ∃ e ∈ evs, e.conn = c ∧ e.failed = false) := by
  obtain ⟨w1, evs, hr, _, _, hw, hm, hf⟩ :=
    rangeSend_total S writeFails fuel I hI w.connections w h0
  refine ⟨w1, evs, hr, hw, hm, hf, ?_⟩
  intro c hc hok
  rw [← hm] at hc
  obtain ⟨e, he, rfl⟩ := List.mem_map.mp hc
  exact ⟨e, he, rfl, by rw [hf e he, hok]⟩

/-- C7 at `happyStore` with three sessions, the second of which fails on write. -/
theorem fetchDataTick_writes_to_every_session_witness :
    ∃ w1 evs, fetchDataTick sampleSys (fun c => c == 2) 1 ⟨happyStore, [1, 2, 3], []⟩ = .ok w1 ∧
      w1.wire = [] ++ evs ∧ evs.map WriteEvent.conn = [1, 2, 3] ∧
      (∀ e ∈ evs, e.failed = (fun c => c == 2) e.conn) ∧
      (∀ c ∈ [1, 2, 3], (fun c => c == 2) c = false →
        ∃ e ∈ evs, e.conn = c ∧ e.failed = false) :=
  fetchDataTick_writes_to_every_session sampleSys (fun c => c == 2) 1 (fun s => s = happyStore)
    (fun s hs => ⟨"\x7b\"a\":1.5,\"b\":2\x7d", happyStore, by rw [hs]; decide!, rfl⟩)
    ⟨happyStore, [1, 2, 3], []⟩ rfl

/-- C8: when the keyspace is empty in the store states of an invariant `I` (the scan
returns no keys and next cursor 0), whatever the bulk get returns for the empty key list,
`GetRedisData` returns the empty object and one pass writes that payload to every
registered session. -/
theorem fetchDataTick_empty_keyspace {σ V : Type} (S : Sys σ V) (writeFails : Conn → Bool)
    (fuel : Nat) (I : σ → Prop) (henv : S.dotenv = true) (hfuel : 1 ≤ fuel)
    (hscan : ∀ s, I s → (S.redis.Scan s 0).1.keys = [] ∧ (S.redis.Scan s 0).1.cursor = 0 ∧
      I (S.redis.Scan s 0).2)
    (hmget : ∀ s, I s → I (S.redis.MGet s []).2)
    (w : World σ) (h0 : I w.store) :
    GetRedisData S fuel w.store =
        .ok ("\x7b\x7d", (S.redis.MGet (S.redis.Scan w.store 0).2 []).2) ∧
      ∃ w1, fetchDataTick S writeFails fuel w = .ok w1 ∧
        w1.connections = w.connections ∧
        w1.wire = w.wire ++ w.connections.map (fun c => ⟨c, "\x7b\x7d", writeFails c⟩) := by
  have hget : ∀ s, I s → GetRedisData S fuel s =
      .ok ("\x7b\x7d", (S.redis.MGet (S.redis.Scan s 0).2 []).2) := fun s hs =>
    GetRedisData_empty_page S fuel s henv hfuel (hscan s hs).1 (hscan s hs).2.1
  refine ⟨hget w.store h0, ?_⟩
  obtain ⟨w1, hr, _, hc, hw⟩ := rangeSend_payload S writeFails fuel I "\x7b\x7d"
    (fun s hs => ⟨_, hget s hs, hmget _ (hscan s hs).2.2⟩) w.connections w h0
  exact ⟨w1, hr, hc, hw⟩

/-- C8 at `emptyStore` with two sessions. -/
theorem fetchDataTick_empty_keyspace_witness :
    GetRedisData sampleSys 1 emptyStore =
        .ok ("\x7b\x7d", (sampleSys.redis.MGet (sampleSys.redis.Scan emptyStore 0).2 []).2) ∧
      ∃ w1, fetchDataTick sampleSys (fun _ => false) 1 ⟨emptyStore, [1, 2], []⟩ = .ok w1 ∧
        w1.connections = [1, 2] ∧
        w1.wire = [] ++ [1, 2].map (fun c => ⟨c, "\x7b\x7d", (fun _ => false) c⟩) :=
  fetchDataTick_empty_keyspace sampleSys (fun _ => false) 1 (fun s => s = emptyStore) rfl
    (by decide) (fun s hs => by subst hs; exact ⟨rfl, rfl, rfl⟩) (fun s hs => by subst hs; rfl)
    ⟨emptyStore, [1, 2], []⟩ rfl

/-- C9 is violated at `emptyStore` with sessions 1 and 2, where writes to session 1 fail:
after the pass session 1 is still registered, and the next pass writes to it again. -/
theorem fetchDataTick_failed_session_counterexample :
    fetchDataTick sampleSys (fun c => c == 1) 1 ⟨emptyStore, [1, 2], []⟩ =
        .ok ⟨emptyStore, [1, 2], [⟨1, "\x7b\x7d", true⟩, ⟨2, "\x7b\x7d", false⟩]⟩ ∧
      fetchDataTick sampleSys (fun c => c == 1) 1
          ⟨emptyStore, [1, 2], [⟨1, "\x7b\x7d", true⟩, ⟨2, "\x7b\x7d", false⟩]⟩ =
        .ok ⟨emptyStore, [1, 2], [⟨1, "\x7b\x7d", true⟩, ⟨2, "\x7b\x7d", false⟩,
          ⟨1, "\x7b\x7d", true⟩, ⟨2, "\x7b\x7d", false⟩]⟩ := by
  decide!

/-- C9 amended: a failed write removes no session.  When snapshot production succeeds
in the store states of an invariant `I`, a pass leaves the registry as it was, whatever
writes failed, and the next pass writes to every registered session again; a session
leaves the registry when its read loop in `handleWebSocket` fails, and that removes this
session only. -/
theorem fetchDataTick_keeps_registry {σ V : Type} (S : Sys σ V) (writeFails : Conn → Bool)
    (fuel : Nat) (I : σ → Prop)
    (hI : ∀ s, I s → ∃ p s1, GetRedisData S fuel s = .ok (p, s1) ∧ I s1)
    (w : World σ) (h0 : I w.store) (c : Conn) :
    (∃ w1, fetchDataTick S writeFails fuel w = .ok w1 ∧ w1.connections = w.connections ∧
      ∃ w2 evs, fetchDataTick S writeFails fuel w1 = .ok w2 ∧
        w2.connections = w.connections ∧ w2.wire = w1.wire ++ evs ∧
        evs.map WriteEvent.conn = w.connections) ∧
      ∀ d, d ∈ (handleWebSocketReadError w c).connections ↔ d ∈ w.connections ∧ d ≠ c := by
  constructor
  · obtain ⟨w1, _, hr1, hi1, hc1, _, _, _⟩ :=
      rangeSend_total S writeFails fuel I hI w.connections w h0
    obtain ⟨w2, evs, hr2, _, hc2, hw2, hm2, _⟩ :=
      rangeSend_total S writeFails fuel I hI w1.connections w1 hi1
    refine ⟨w1, hr1, hc1, w2, evs, hr2, ?_, hw2, ?_⟩
    · rw [hc2, hc1]
    · rw [hm2, hc1]
  · intro d
    simp [handleWebSocketReadError, registryDelete]

/-- C9 amended at `emptyStore` with sessions 1 and 2, where writes to session 1 fail. -/
theorem fetchDataTick_keeps_registry_witness :
    (∃ w1, fetchDataTick sampleSys (fun c => c == 1) 1 ⟨emptyStore, [1, 2], []⟩ = .ok w1 ∧
      w1.connections = [1, 2] ∧
      ∃ w2 evs, fetchDataTick sampleSys (fun c => c == 1) 1 w1 = .ok w2 ∧
        w2.connections = [1, 2] ∧ w2.wire = w1.wire ++ evs ∧
        evs.map WriteEvent.conn = [1, 2]) ∧
      ∀ d, d ∈ (handleWebSocketReadError (⟨emptyStore, [1, 2], []⟩ : World Mock) 1).connections ↔
        d ∈ [1, 2] ∧ d ≠ 1 :=
  fetchDataTick_keeps_registry sampleSys (fun c => c == 1) 1 (fun s => s = emptyStore)
    (fun s hs => ⟨"\x7b\x7d", emptyStore, by rw [hs]; decide!, rfl⟩)
    ⟨emptyStore, [1, 2], []⟩ rfl 1

end Relay
